import Mathlib

/-
Verification of the robo-swimmer game core (src/game.py, src/gameutil.py).

Shallow embedding conventions:
  * Python floats are modelled as exact rationals (ℚ); all arithmetic in the
    source stays in ranges where float rounding never occurs (denominators 2,3,4).
  * pygame `Rect` stores integer coordinates; constructing a Rect (or Surface)
    from float values truncates them toward zero, modelled by `qtrunc`.
  * `Rect.colliderect` is the strict-overlap test (touching edges, or a
    zero-sized rectangle, do not collide).
  * The player sprite is loaded from assets/player.png, which is not part of
    the repository; its width and height are kept as parameters `pw ph : ℕ`.
  * Randomness (`randint(-100, 100)`) and timer events are externalized: the
    obstacle offset is a parameter of the constructor, and `add_obstacle`
    takes the drawn offset as an argument.
-/

/-- Truncation toward zero, as performed by Python `int()` / pygame when an
integer coordinate is built from a float. -/
def qtrunc (x : ℚ) : ℤ := if 0 ≤ x then ⌊x⌋ else -⌊-x⌋

/-- pygame Rect: integer position and size. -/
structure Rect where
  x : ℤ
  y : ℤ
  w : ℤ
  h : ℤ
  deriving DecidableEq, Repr

def Rect.top (r : Rect) : ℤ := r.y

def Rect.bottom (r : Rect) : ℤ := r.y + r.h

def Rect.centerx (r : Rect) : ℤ := r.x + r.w / 2

def Rect.centery (r : Rect) : ℤ := r.y + r.h / 2

/-- pygame `Rect.colliderect`: strict overlap (shared edges do not collide,
zero-sized rects never collide). -/
def Rect.colliderect (a b : Rect) : Bool :=
  decide (a.x < b.x + b.w ∧ b.x < a.x + a.w ∧ a.y < b.y + b.h ∧ b.y < a.y + a.h)

/-- gameutil.GameState. -/
inductive GameState where
  | RUNNING
  | OVER
  | PAUSED
  | NOT_STARTED
  deriving DecidableEq, Repr

/-- Fixed window dimensions set in Game.__init__. -/
def window_width : ℤ := 1280

def window_height : ℤ := 640

/-- Game.gravity, set to 8 in Game.__init__ and only read afterwards. -/
def gravity : ℚ := 8

/-- Obstacle: screen_height and the random offset are fixed at construction,
gap_size = 170 and speed = 5 are instance constants, (x, y) is the position.
The top/bottom surfaces created by `_init_surface` are immutable, so their
sizes are recomputed from the fields instead of being stored. -/
structure Obstacle where
  screen_height : ℚ
  offset : ℤ
  x : ℚ
  y : ℚ
  deriving DecidableEq, Repr

def Obstacle.gap_size (_ : Obstacle) : ℚ := 170

def Obstacle.speed (_ : Obstacle) : ℚ := 5

/-- Obstacle.__init__ : position (1200, 0). -/
def Obstacle.init (screen_height : ℚ) (offset : ℤ) : Obstacle :=
  { screen_height := screen_height, offset := offset, x := 1200, y := 0 }

/-- Obstacle.update: x -= speed. -/
def Obstacle.update (o : Obstacle) : Obstacle := { o with x := o.x - o.speed }

/-- Size of `_top_surface` built in `_init_surface`:
(80, block_size - gap_center + offset), truncated by the Surface constructor. -/
def Obstacle.topSurfaceSize (o : Obstacle) : ℤ × ℤ :=
  (80, qtrunc (o.screen_height / 2 - o.gap_size / 2 + (o.offset : ℚ)))

/-- Size of `_bot_surface` built in `_init_surface`: (80, block_size + 200). -/
def Obstacle.botSurfaceSize (o : Obstacle) : ℤ × ℤ :=
  (80, qtrunc (o.screen_height / 2 + 200))

/-- Obstacle.get_hitbox: the pair (top rectangle, bottom rectangle). -/
def Obstacle.get_hitbox (o : Obstacle) : Rect × Rect :=
  ({ x := qtrunc o.x, y := qtrunc o.y
     w := o.topSurfaceSize.1, h := o.topSurfaceSize.2 },
   { x := qtrunc o.x
     y := qtrunc (o.y + o.screen_height / 2 + o.gap_size / 2 + (o.offset : ℚ))
     w := o.botSurfaceSize.1, h := o.botSurfaceSize.2 })

/-- Width of the composite surface returned by Obstacle.get_surface
(`obstacle_width = 80` in `_init_surface`). -/
def Obstacle.surfaceWidth (_ : Obstacle) : ℚ := 80

/-- Player: position and upward velocity.  x stays at its initial 250. -/
structure Player where
  x : ℚ
  y : ℚ
  velocity_up : ℚ
  deriving DecidableEq, Repr

/-- Player.__init__: position (250, 200), velocity 0. -/
def Player.init : Player := { x := 250, y := 200, velocity_up := 0 }

/-- GameObject.get_hitbox for the player; (pw, ph) is the sprite size. -/
def Player.get_hitbox (pw ph : ℕ) (p : Player) : Rect :=
  { x := qtrunc p.x, y := qtrunc p.y, w := (pw : ℤ), h := (ph : ℤ) }

/-- Player.swim: velocity_up = 30 (overwrite, not additive). -/
def Player.swim (p : Player) : Player := { p with velocity_up := 30 }

/-- Player.update, step for step:
1. floor clamp against the PREVIOUS position; 2. top clamp (elif);
3. y -= velocity_up / 2; 4. decay while velocity_up > 0 by gravity / 4;
5. y += gravity / 3. -/
def Player.update (pw ph : ℕ) (p : Player) : Player :=
  let p1 :=
    if (p.get_hitbox pw ph).bottom > window_height then { p with y := 570 }
    else if (p.get_hitbox pw ph).top < 0 then { p with y := 0, velocity_up := 0 }
    else p
  let p2 := { p1 with y := p1.y - p1.velocity_up / 2 }
  let p3 :=
    if p2.velocity_up > 0 then { p2 with velocity_up := p2.velocity_up - gravity / 4 }
    else p2
  { p3 with y := p3.y + gravity / 3 }

/-- Obstacle.detect_collision: the player's single hitbox against either of
the obstacle's two rectangles. -/
def Obstacle.detect_collision (pw ph : ℕ) (o : Obstacle) (p : Player) : Bool :=
  (o.get_hitbox.1.colliderect (p.get_hitbox pw ph)) ||
    (o.get_hitbox.2.colliderect (p.get_hitbox pw ph))

/-- The on-screen condition of Game.get_on_screen_obstacles:
`obstacle.x + obstacle.get_surface().get_width() > 9` (the width is 80). -/
def keepB (o : Obstacle) : Bool := decide (o.x + o.surfaceWidth > 9)

/-- Game state: the player, the obstacle deque (front = oldest), the passed
counter, the cumulated distance and the session state. -/
structure Game where
  state : GameState
  player : Player
  obstacles : List Obstacle
  obstacles_passed : ℕ
  distance_traveled : ℚ
  deriving DecidableEq, Repr

/-- Game.__init__ (window fixed at 1280×640). -/
def Game.init : Game :=
  { state := GameState.NOT_STARTED, player := Player.init, obstacles := []
    obstacles_passed := 0, distance_traveled := 0 }

/-- Game.init_game: only state change; the spawn timer is an external event
source. -/
def Game.init_game (g : Game) : Game := { g with state := GameState.RUNNING }

/-- Game.add_obstacle; `off` is the externally drawn randint(-100, 100). -/
def Game.add_obstacle (off : ℤ) (g : Game) : Game :=
  { g with obstacles := g.obstacles ++ [Obstacle.init (window_height : ℚ) off] }

/-- Game.get_on_screen_obstacles, in state-passing form: it mutates
obstacles_passed and returns the filtered deque. -/
def Game.get_on_screen_obstacles (g : Game) : Game × List Obstacle :=
  let obstacles := g.obstacles.filter keepB
  ({ g with obstacles_passed :=
      g.obstacles_passed + (g.obstacles.length - obstacles.length) },
   obstacles)

/-- Game.get_score. -/
def Game.get_score (g : Game) : ℕ := g.obstacles_passed

/-- The loop body of Game.get_next_obstacle, with the source's accumulator
pair (closest_obstacle, closest_pos).  Faithfully to the source, the `elif
closest_pos > obstacle_pos` branch replaces only closest_obstacle and leaves
closest_pos untouched. -/
def nextObstGo (p : ℤ) : List Obstacle → Option (Obstacle × ℤ) → Option Obstacle
  | [], acc => Option.map Prod.fst acc
  | o :: rest, acc =>
    if o.get_hitbox.1.centerx > p then
      match acc with
      | none => nextObstGo p rest (some (o, o.get_hitbox.1.centerx))
      | some (co, cp) =>
        if cp > o.get_hitbox.1.centerx then nextObstGo p rest (some (o, cp))
        else nextObstGo p rest (some (co, cp))
    else nextObstGo p rest acc

/-- Game.get_next_obstacle. -/
def Game.get_next_obstacle (pw ph : ℕ) (g : Game) : Option Obstacle :=
  nextObstGo ((g.player.get_hitbox pw ph).centerx) g.obstacles none

/-- Game.distance_to_obstacle (both centers are Rect ints in the source). -/
def Game.distance_to_obstacle (pw ph : ℕ) (g : Game) (o : Obstacle) : ℤ :=
  o.get_hitbox.1.centerx - (g.player.get_hitbox pw ph).centerx

/-- Game.height_to_obstacle (int + float arithmetic, exact in ℚ). -/
def Game.height_to_obstacle (pw ph : ℕ) (g : Game) (o : Obstacle) : ℚ :=
  ((o.get_hitbox.1.bottom : ℚ) + o.gap_size / 2) -
    ((g.player.get_hitbox pw ph).centery : ℚ)

/-- Game.calculate_fitness.  When get_next_obstacle returns None the source
raises (AttributeError on None); this failure is modelled as `none`. -/
def Game.calculate_fitness (pw ph : ℕ) (g : Game) : Option ℚ :=
  match g.get_next_obstacle pw ph with
  | none => none
  | some o =>
    some (g.distance_traveled -
      ((g.distance_to_obstacle pw ph o : ℚ) + |g.height_to_obstacle pw ph o|))

/-- One filter pass of the update loop over a flagged obstacle list:
`q.2 = false` marks an object that has already been dropped from
`self.obstacles` (the Python iterator still visits and mutates it, but it no
longer belongs to the deque). -/
def filterMark (l : List (Obstacle × Bool)) : List (Obstacle × Bool) :=
  l.map fun q => (q.1, q.2 && keepB q.1)

/-- Number of elements a filter pass removes from the live deque. -/
def dyingCount (l : List (Obstacle × Bool)) : ℕ :=
  l.countP fun q => q.2 && !(keepB q.1)

/-- The `for obstacle in self.obstacles` loop of Game.update.  The Python
iterator is bound to the deque object present at loop entry, while
`self.obstacles` is reassigned to a fresh filtered deque on every iteration;
the Obstacle objects are shared between the two.  This is modelled by keeping
every snapshot object in the list and tracking deque membership with a Bool:
`prevs` are the objects already visited, `rest` those still to visit.  Each
step updates the head object, tests collision, and performs
get_on_screen_obstacles on the current live deque (= flagged members of
prevs ++ head :: rest). -/
def tickLoop (pw ph : ℕ) (pl : Player) (st : GameState) (passed : ℕ)
    (prevs rest : List (Obstacle × Bool)) : GameState × ℕ × List (Obstacle × Bool) :=
  match rest with
  | [] => (st, passed, prevs)
  | q :: rs =>
    let o := q.1.update
    let st1 := if Obstacle.detect_collision pw ph o pl then GameState.OVER else st
    let newly := dyingCount (prevs ++ (o, q.2) :: rs)
    tickLoop pw ph pl st1 (passed + newly)
      (filterMark prevs ++ [(o, q.2 && keepB o)]) (filterMark rs)
  termination_by rest.length
  decreasing_by simp [filterMark]

/-- Game.update: player update, distance += 1, then the obstacle loop. -/
def Game.update (pw ph : ℕ) (g : Game) : Game :=
  let p := g.player.update pw ph
  let r := tickLoop pw ph p g.state g.obstacles_passed []
    (g.obstacles.map fun o => (o, true))
  { state := r.1, player := p
    obstacles := (r.2.2.filter fun q => q.2).map fun q => q.1
    obstacles_passed := r.2.1
    distance_traveled := g.distance_traveled + 1 }

/-- The two player operations the session core can invoke on the player:
swim (space key / AI impulse) and the per-tick physics update. -/
inductive POp where
  | swim
  | update
  deriving DecidableEq, Repr

def playerStep (pw ph : ℕ) (p : Player) : POp → Player
  | POp.swim => p.swim
  | POp.update => p.update pw ph

/-- The player state reached from Player.__init__ by a sequence of swim and
update calls. -/
def playerRun (pw ph : ℕ) (ops : List POp) : Player :=
  ops.foldl (playerStep pw ph) Player.init

/-- The reachability invariant of the player's velocity: an even value
between 0 and 30. -/
def velInv (p : Player) : Prop := ∃ k : ℕ, k ≤ 15 ∧ p.velocity_up = 2 * k

/-- State-passing form of Game.get_next_obstacle: the method only reads. -/
def Game.get_next_obstacle_st (pw ph : ℕ) (g : Game) : Game × Option Obstacle :=
  (g, g.get_next_obstacle pw ph)

/-- State-passing form of Game.distance_to_obstacle. -/
def Game.distance_to_obstacle_st (pw ph : ℕ) (g : Game) (o : Obstacle) : Game × ℤ :=
  (g, g.distance_to_obstacle pw ph o)

/-- State-passing form of Game.height_to_obstacle. -/
def Game.height_to_obstacle_st (pw ph : ℕ) (g : Game) (o : Obstacle) : Game × ℚ :=
  (g, g.height_to_obstacle pw ph o)

/-- State-passing form of Game.calculate_fitness, chaining the three reads
exactly as the source does. -/
def Game.calculate_fitness_st (pw ph : ℕ) (g : Game) : Game × Option ℚ :=
  let r1 := g.get_next_obstacle_st pw ph
  match r1.2 with
  | none => (r1.1, none)
  | some o =>
    let r2 := r1.1.distance_to_obstacle_st pw ph o
    let r3 := r2.1.height_to_obstacle_st pw ph o
    (r3.1, some (r3.1.distance_traveled - ((r2.2 : ℚ) + |r3.2|)))

/-- The queue-ordering relation under which get_next_obstacle is correct:
top-rectangle centers non-decreasing from front (oldest) to back. -/
def centerSorted (l : List Obstacle) : Prop :=
  l.Pairwise fun a b => a.get_hitbox.1.centerx ≤ b.get_hitbox.1.centerx

/-- Concrete obstacles for the C1 counterexample (all parameters as spawned
by the game except x, which has been advanced by updates). -/
def oA : Obstacle := { screen_height := 640, offset := 0, x := 400, y := 0 }

def oB : Obstacle := { screen_height := 640, offset := 0, x := 300, y := 0 }

def oC : Obstacle := { screen_height := 640, offset := 0, x := 350, y := 0 }

/-- A game whose queue holds centers 440, 340, 390: not sorted in queue
order, exposing the stale closest_pos in get_next_obstacle. -/
def gC1 : Game :=
  { state := GameState.RUNNING, player := Player.init, obstacles := [oA, oB, oC]
    obstacles_passed := 0, distance_traveled := 0 }

/-- A game whose queue is sorted by center (as every reachable queue is). -/
def gW : Game :=
  { state := GameState.RUNNING, player := Player.init, obstacles := [oB, oA]
    obstacles_passed := 0, distance_traveled := 0 }

/-- The `for` loop of Game.update without the per-obstacle re-filtering:
update each obstacle and test collision, in queue order. -/
def collideLoop (pw ph : ℕ) (pl : Player) : GameState → List Obstacle → GameState × List Obstacle
  | st, [] => (st, [])
  | st, o :: rest =>
    let o1 := o.update
    let st1 := if Obstacle.detect_collision pw ph o1 pl then GameState.OVER else st
    let r := collideLoop pw ph pl st1 rest
    (r.1, o1 :: r.2)

/-- Modelled from the spec (section 4.4 step 4 and the second open question of
section 9): the variant of Game.update whose on-screen filter (and
obstacles_passed update) runs once per tick, after the loop. -/
def Game.updateFilterOnce (pw ph : ℕ) (g : Game) : Game :=
  let p := g.player.update pw ph
  let r := collideLoop pw ph p g.state g.obstacles
  let kept := r.2.filter keepB
  { state := r.1, player := p, obstacles := kept
    obstacles_passed := g.obstacles_passed + (r.2.length - kept.length)
    distance_traveled := g.distance_traveled + 1 }

/-- The game after n ticks. -/
def gameAfter (pw ph : ℕ) (n : ℕ) (g : Game) : Game := (Game.update pw ph)^[n] g

/-- The C2 scenario: a fresh game, started, with one obstacle spawned with
offset 0 (so at x = 1200 with screen_height 640). -/
def g1 : Game := (Game.init.init_game).add_obstacle 0

/-- Number of obstacles the on-screen filter removes during the next tick of
game g (each obstacle moves left by 5, then those with x + 80 ≤ 9 drop). -/
def removedInTick (g : Game) : ℕ :=
  (g.obstacles.map Obstacle.update).countP fun o => !(keepB o)

/-- Total number of obstacles removed by the filter during the first n ticks. -/
def cumRemoved (pw ph : ℕ) (g : Game) : ℕ → ℕ
  | 0 => 0
  | n + 1 => cumRemoved pw ph g n + removedInTick (gameAfter pw ph n g)

/-- The core operations of the game session (queries in their state-passing
form; add_obstacle carries the externally drawn offset). -/
inductive GameOp where
  | init_game
  | update
  | add_obstacle (off : ℤ)
  | get_score
  | get_next_obstacle
  | distance_to_obstacle (o : Obstacle)
  | height_to_obstacle (o : Obstacle)
  | calculate_fitness
  deriving DecidableEq, Repr

/-- The game state after one core operation. -/
def applyOp (pw ph : ℕ) : GameOp → Game → Game
  | GameOp.init_game, g => g.init_game
  | GameOp.update, g => g.update pw ph
  | GameOp.add_obstacle off, g => g.add_obstacle off
  | GameOp.get_score, g => g
  | GameOp.get_next_obstacle, g => (g.get_next_obstacle_st pw ph).1
  | GameOp.distance_to_obstacle o, g => (g.distance_to_obstacle_st pw ph o).1
  | GameOp.height_to_obstacle o, g => (g.height_to_obstacle_st pw ph o).1
  | GameOp.calculate_fitness, g => (g.calculate_fitness_st pw ph).1

/-- A game that is NOT_STARTED while an obstacle overlaps the player: one
update moves the state straight to OVER, a transition outside the two listed
in C9.  (The same situation is reachable from the fresh game by add_obstacle
followed by repeated update calls, no init_game ever being invoked.) -/
def gBad : Game :=
  { state := GameState.NOT_STARTED, player := Player.init
    obstacles := [{ screen_height := 640, offset := 0, x := 200, y := 0 }]
    obstacles_passed := 0, distance_traveled := 0 }

theorem qtrunc_intCast (n : ℤ) : qtrunc (n : ℚ) = n := by
  unfold qtrunc
  split
  · exact Int.floor_intCast n
  · rw [← Int.cast_neg, Int.floor_intCast, neg_neg]

theorem qtrunc_nonpos {x : ℚ} (h : x ≤ 0) : qtrunc x ≤ 0 := by
  unfold qtrunc
  split
  · have : x = 0 := le_antisymm h (by assumption)
    simp [this]
  · have hx : (0 : ℚ) ≤ -x := by linarith
    have : (0 : ℤ) ≤ ⌊-x⌋ := by
      rw [Int.le_floor]
      exact_mod_cast hx
    omega

theorem qtrunc_lt {x : ℚ} {n : ℤ} (h : x < (n : ℚ)) (hn : 0 < n) : qtrunc x < n := by
  unfold qtrunc
  split
  · rw [Int.floor_lt]
    exact h
  · have hx : x < 0 := by linarith [not_le.mp (by assumption : ¬ (0:ℚ) ≤ x)]
    have : (0 : ℤ) ≤ ⌊-x⌋ := by
      rw [Int.le_floor]
      push_cast
      linarith
    omega

theorem qtrunc_neg_of_lt {x : ℚ} (h : x ≤ -1) : qtrunc x < 0 := by
  unfold qtrunc
  split
  · linarith
  · have : (1 : ℤ) ≤ ⌊-x⌋ := by
      rw [Int.le_floor]
      push_cast
      linarith
    omega

/-- After n ticks an obstacle spawned with a given offset sits at
x = 1200 - 5 n, with y and the construction parameters unchanged. -/
theorem obstacle_iterate (off : ℤ) (n : ℕ) :
    Obstacle.update^[n] (Obstacle.init (window_height : ℚ) off) =
      { screen_height := 640, offset := off, x := 1200 - 5 * (n : ℚ), y := 0 } := by
  induction n with
  | zero => simp [Obstacle.init, window_height]
  | succ n ih =>
    rw [Function.iterate_succ_apply', ih]
    simp only [Obstacle.update, Obstacle.speed]
    congr 1
    push_cast
    ring

/-- C6: the two hitbox rectangles of an obstacle, at construction and after
any number of updates: the bottom rectangle's top edge is exactly gap_size
(170) below the top rectangle's bottom edge, and the rectangles do not
overlap. -/
theorem claim_C6 (off : ℤ) (n : ℕ) (o : Obstacle)
    (h1 : -100 ≤ off) (h2 : off ≤ 100)
    (ho : o = Obstacle.update^[n] (Obstacle.init (window_height : ℚ) off)) :
    o.get_hitbox.2.top = o.get_hitbox.1.bottom + 170 ∧
      o.get_hitbox.1.colliderect o.get_hitbox.2 = false := by
  subst ho
  rw [obstacle_iterate]
  have htop : qtrunc ((640 : ℚ) / 2 - 170 / 2 + (off : ℚ)) = 235 + off := by
    have h : ((640 : ℚ) / 2 - 170 / 2 + (off : ℚ)) = ((235 + off : ℤ) : ℚ) := by
      push_cast
      ring
    rw [h, qtrunc_intCast]
  have hbot : qtrunc ((0 : ℚ) + (640 : ℚ) / 2 + 170 / 2 + (off : ℚ)) = 405 + off := by
    have h : ((0 : ℚ) + (640 : ℚ) / 2 + 170 / 2 + (off : ℚ)) = ((405 + off : ℤ) : ℚ) := by
      push_cast
      ring
    rw [h, qtrunc_intCast]
  constructor
  · simp only [Obstacle.get_hitbox, Obstacle.topSurfaceSize, Obstacle.botSurfaceSize,
      Obstacle.gap_size, Rect.top, Rect.bottom, htop, hbot]
    have h0 : qtrunc (0 : ℚ) = 0 := by
      have := qtrunc_intCast 0
      simpa using this
    rw [h0]
    ring
  · simp only [Obstacle.get_hitbox, Obstacle.topSurfaceSize, Obstacle.botSurfaceSize,
      Obstacle.gap_size, Rect.colliderect, htop, hbot]
    rw [decide_eq_false_iff_not]
    intro hcon
    have h4 := hcon.2.2.2
    have h0 : qtrunc (0 : ℚ) = 0 := by
      have := qtrunc_intCast 0
      simpa using this
    rw [h0] at h4
    omega

/-- Velocity after one update: zeroed by the top clamp, otherwise decayed by
gravity / 4 = 2 exactly when it was positive. -/
theorem Player.update_velocity (pw ph : ℕ) (p : Player) :
    (Player.update pw ph p).velocity_up =
      if ¬((p.get_hitbox pw ph).bottom > window_height) ∧ (p.get_hitbox pw ph).top < 0
      then 0
      else if p.velocity_up > 0 then p.velocity_up - 2 else p.velocity_up := by
  simp only [Player.update]
  split_ifs <;> simp_all <;> norm_num [gravity]

/-- Position after one update: clamp (floor, then top), upward displacement
by half the (possibly zeroed) velocity, then gravity / 3 downward. -/
theorem Player.update_y (pw ph : ℕ) (p : Player) :
    (Player.update pw ph p).y =
      (if (p.get_hitbox pw ph).bottom > window_height then (570 : ℚ)
       else if (p.get_hitbox pw ph).top < 0 then 0 else p.y) -
      (if ¬((p.get_hitbox pw ph).bottom > window_height) ∧ (p.get_hitbox pw ph).top < 0
       then (0 : ℚ) else p.velocity_up) / 2 + 8 / 3 := by
  simp only [Player.update]
  split_ifs <;> simp_all <;> norm_num [gravity]

theorem velInv_init : velInv Player.init := ⟨0, by norm_num, by norm_num [Player.init]⟩

theorem velInv_step (pw ph : ℕ) (p : Player) (op : POp) (h : velInv p) :
    velInv (playerStep pw ph p op) := by
  obtain ⟨k, hk, hv⟩ := h
  cases op with
  | swim => exact ⟨15, le_refl 15, by norm_num [playerStep, Player.swim]⟩
  | update =>
    simp only [playerStep]
    unfold velInv
    rw [Player.update_velocity]
    split_ifs with h1 h2
    · exact ⟨0, by norm_num, by norm_num⟩
    · refine ⟨k - 1, by omega, ?_⟩
      have hk1 : 1 ≤ k := by
        by_contra hc
        have : k = 0 := by omega
        rw [this] at hv
        rw [hv] at h2
        norm_num at h2
      rw [hv]
      push_cast [hk1]
      ring
    · exact ⟨k, hk, hv⟩

theorem playerRun_velInv (pw ph : ℕ) (ops : List POp) : velInv (playerRun pw ph ops) := by
  unfold playerRun
  have h : ∀ (l : List POp) (p : Player), velInv p → velInv (l.foldl (playerStep pw ph) p) := by
    intro l
    induction l with
    | nil => intro p hp; exact hp
    | cons op rest ih => intro p hp; exact ih _ (velInv_step pw ph p op hp)
  exact h ops Player.init velInv_init

/-- C3, amended: over every reachable sequence of swim() and update() calls
the velocity never becomes negative; it is always an even value in [0, 30]. -/
theorem claim_C3 (pw ph : ℕ) (ops : List POp) :
    0 ≤ (playerRun pw ph ops).velocity_up ∧
    (playerRun pw ph ops).velocity_up ≤ 30 ∧
    ∃ k : ℕ, (playerRun pw ph ops).velocity_up = 2 * k := by
  obtain ⟨k, hk, hv⟩ := playerRun_velInv pw ph ops
  refine ⟨?_, ?_, k, hv⟩
  · rw [hv]; positivity
  · rw [hv]
    have : (k : ℚ) ≤ 15 := by exact_mod_cast hk
    linarith

/-- C3 as stated is false: no reachable sequence of swim() and update()
calls drives velocity_up strictly below zero. -/
theorem claim_C3_counterexample :
    ¬ ∃ (pw ph : ℕ) (ops : List POp), (playerRun pw ph ops).velocity_up < 0 := by
  rintro ⟨pw, ph, ops, hneg⟩
  obtain ⟨k, _, hv⟩ := playerRun_velInv pw ph ops
  rw [hv] at hneg
  have : (0 : ℚ) ≤ 2 * k := by positivity
  linarith

theorem lt_of_qtrunc_le {x : ℚ} {m : ℤ} (h : qtrunc x ≤ m) (hm : 0 ≤ m) :
    x < (m : ℚ) + 1 := by
  unfold qtrunc at h
  split at h
  · calc x < (⌊x⌋ : ℚ) + 1 := Int.lt_floor_add_one x
      _ ≤ (m : ℚ) + 1 := by exact_mod_cast add_le_add_right (Int.cast_le.mpr h) 1
  · have : x < 0 := not_le.mp (by assumption)
    have hm' : (0 : ℚ) ≤ (m : ℚ) := by exact_mod_cast hm
    linarith

/-- C4: for every reachable player state (player height at most 71, per the
spec's floor clamp at 570 in the 640-high window), after one update the
hitbox bottom is at most window height + 3; and if the hitbox top was
negative at the start of the call while the floor clamp did not fire, the
hitbox top is non-negative after the call. -/
theorem claim_C4 (pw ph : ℕ) (ops : List POp) (p : Player)
    (hph : ph ≤ 71) (hp : p = playerRun pw ph ops) :
    ((p.update pw ph).get_hitbox pw ph).bottom ≤ window_height + 3 ∧
      ((p.get_hitbox pw ph).top < 0 → ¬((p.get_hitbox pw ph).bottom > window_height) →
        0 ≤ ((p.update pw ph).get_hitbox pw ph).top) := by
  have hv : 0 ≤ p.velocity_up := by
    obtain ⟨k, _, hk⟩ := playerRun_velInv pw ph ops
    rw [hp, hk]; positivity
  have hy := Player.update_y pw ph p
  have h83 : qtrunc ((8 : ℚ) / 3) = 2 := by
    unfold qtrunc
    rw [if_pos (by norm_num)]
    rw [Int.floor_eq_iff]
    norm_num
  have hbot_eq : ∀ q : Player, (q.get_hitbox pw ph).bottom = qtrunc q.y + (ph : ℤ) :=
    fun q => rfl
  have htop_eq : ∀ q : Player, (q.get_hitbox pw ph).top = qtrunc q.y := fun q => rfl
  constructor
  · rw [hbot_eq]
    by_cases hA : (p.get_hitbox pw ph).bottom > window_height
    · -- floor clamp fired: y' = 570 - v/2 + 8/3 < 573
      rw [if_pos hA, if_neg (fun hc => hc.1 hA)] at hy
      have hlt : (Player.update pw ph p).y < ((573 : ℤ) : ℚ) := by
        rw [hy]; push_cast; linarith
      have hq := qtrunc_lt hlt (by norm_num)
      simp only [window_height]
      omega
    · by_cases hB : (p.get_hitbox pw ph).top < 0
      · -- top clamp fired: y' = 8/3
        rw [if_neg hA, if_pos hB, if_pos ⟨hA, hB⟩] at hy
        have hy' : (Player.update pw ph p).y = 8 / 3 := by rw [hy]; ring
        rw [hy', h83]
        simp only [window_height]
        omega
      · -- no clamp: qtrunc p.y + ph ≤ 640, so y < 641 - ph and y' < 644 - ph
        rw [if_neg hA, if_neg hB, if_neg (fun hc => hB hc.2)] at hy
        have hqt : qtrunc p.y ≤ window_height - (ph : ℤ) := by
          rw [hbot_eq] at hA
          push_neg at hA
          omega
        have hyb : p.y < ((window_height - (ph : ℤ)) : ℚ) + 1 := by
          have := lt_of_qtrunc_le hqt (by simp only [window_height]; omega)
          exact_mod_cast this
        have hlt : (Player.update pw ph p).y < ((644 - (ph : ℤ) : ℤ) : ℚ) := by
          rw [hy]
          simp only [window_height] at hyb
          push_cast at hyb ⊢
          linarith
        have hq := qtrunc_lt hlt (by omega)
        simp only [window_height]
        omega
  · intro htop hbot
    rw [if_neg hbot, if_pos htop, if_pos ⟨hbot, htop⟩] at hy
    have hy' : (Player.update pw ph p).y = 8 / 3 := by rw [hy]; ring
    rw [htop_eq, hy', h83]
    norm_num

/-- Witness for C4 at the initial player state with a 70×70 sprite. -/
theorem claim_C4_witness :
    (70 : ℕ) ≤ 71 ∧
      ((((playerRun 70 70 []).update 70 70).get_hitbox 70 70).bottom ≤ window_height + 3 ∧
        (((playerRun 70 70 []).get_hitbox 70 70).top < 0 →
          ¬(((playerRun 70 70 []).get_hitbox 70 70).bottom > window_height) →
          0 ≤ (((playerRun 70 70 []).update 70 70).get_hitbox 70 70).top)) :=
  ⟨by decide, claim_C4 70 70 [] (playerRun 70 70 []) (by decide) rfl⟩

/-- Witness for C6 at offset 0 after one update. -/
theorem claim_C6_witness :
    ((-100 : ℤ) ≤ 0 ∧ (0 : ℤ) ≤ 100) ∧
      ((Obstacle.update^[1] (Obstacle.init (window_height : ℚ) 0)).get_hitbox.2.top =
        (Obstacle.update^[1] (Obstacle.init (window_height : ℚ) 0)).get_hitbox.1.bottom + 170 ∧
      (Obstacle.update^[1] (Obstacle.init (window_height : ℚ) 0)).get_hitbox.1.colliderect
        (Obstacle.update^[1] (Obstacle.init (window_height : ℚ) 0)).get_hitbox.2 = false) :=
  ⟨⟨by decide, by decide⟩, claim_C6 0 1 _ (by decide) (by decide) rfl⟩

theorem nextObstGo_some_ne_none (p : ℤ) (l : List Obstacle) (x : Obstacle × ℤ) :
    nextObstGo p l (some x) ≠ none := by
  induction l generalizing x with
  | nil => simp [nextObstGo]
  | cons o rest ih =>
    obtain ⟨co, cp⟩ := x
    simp only [nextObstGo]
    split_ifs with h1 h2
    · exact ih _
    · exact ih _
    · exact ih _

theorem nextObstGo_none_iff (p : ℤ) (l : List Obstacle) :
    nextObstGo p l none = none ↔ ∀ o ∈ l, ¬(o.get_hitbox.1.centerx > p) := by
  induction l with
  | nil => simp [nextObstGo]
  | cons o rest ih =>
    by_cases h : o.get_hitbox.1.centerx > p
    · simp only [nextObstGo, if_pos h]
      constructor
      · intro hc
        exact absurd hc (nextObstGo_some_ne_none p rest _)
      · intro hall
        exact absurd h (hall o (List.mem_cons_self o rest))
    · simp only [nextObstGo, if_neg h]
      rw [ih]
      constructor
      · intro hall o' ho'
        rcases List.mem_cons.mp ho' with rfl | hm
        · exact h
        · exact hall o' hm
      · intro hall o' ho'
        exact hall o' (List.mem_cons_of_mem o ho')

theorem nextObstGo_stable (p : ℤ) (l : List Obstacle) (co : Obstacle) (cp : ℤ)
    (h : ∀ o ∈ l, cp ≤ o.get_hitbox.1.centerx) :
    nextObstGo p l (some (co, cp)) = some co := by
  induction l generalizing co with
  | nil => simp [nextObstGo]
  | cons o rest ih =>
    simp only [nextObstGo]
    have hle : cp ≤ o.get_hitbox.1.centerx := h o (List.mem_cons_self o rest)
    have hrest : ∀ o' ∈ rest, cp ≤ o'.get_hitbox.1.centerx :=
      fun o' ho' => h o' (List.mem_cons_of_mem o ho')
    split_ifs with h1 h2
    · omega
    · exact ih co hrest
    · exact ih co hrest

theorem nextObstGo_sorted (p : ℤ) (l : List Obstacle) (hs : centerSorted l) :
    nextObstGo p l none = l.find? fun o => decide (o.get_hitbox.1.centerx > p) := by
  induction l with
  | nil => simp [nextObstGo]
  | cons o rest ih =>
    rw [centerSorted, List.pairwise_cons] at hs
    obtain ⟨hhead, htail⟩ := hs
    by_cases h : o.get_hitbox.1.centerx > p
    · simp only [nextObstGo, if_pos h]
      rw [List.find?_cons_of_pos _ (by simpa using h)]
      exact nextObstGo_stable p rest o _ hhead
    · simp only [nextObstGo, if_neg h]
      rw [List.find?_cons_of_neg _ (by simpa using h)]
      exact ih htail

theorem find_sorted_min (l : List Obstacle) (hs : centerSorted l) (p : ℤ) (o : Obstacle)
    (hf : (l.find? fun o' => decide (o'.get_hitbox.1.centerx > p)) = some o) :
    ∀ o' ∈ l, o'.get_hitbox.1.centerx > p →
      o.get_hitbox.1.centerx ≤ o'.get_hitbox.1.centerx := by
  induction l with
  | nil => simp at hf
  | cons a rest ih =>
    rw [centerSorted, List.pairwise_cons] at hs
    obtain ⟨hhead, htail⟩ := hs
    by_cases ha : a.get_hitbox.1.centerx > p
    · rw [List.find?_cons_of_pos _ (by simpa using ha)] at hf
      obtain rfl : a = o := by simpa using hf
      intro o' ho' _
      rcases List.mem_cons.mp ho' with rfl | hm
      · exact le_refl _
      · exact hhead o' hm
    · rw [List.find?_cons_of_neg _ (by simpa using ha)] at hf
      intro o' ho' hgt
      rcases List.mem_cons.mp ho' with rfl | hm
      · exact absurd hgt ha
      · exact ih htail hf o' hm hgt

/-- C1, amended: when the queue's top-rectangle centers are non-decreasing in
queue order (which holds for every reachable queue, since obstacles spawn at
a fixed x and all move left in lockstep), get_next_obstacle returns the first
obstacle whose center strictly exceeds the player's center, and that obstacle
attains the smallest such center.  Without the sortedness assumption the
claim is false (see the counterexample): the loop's elif branch replaces
closest_obstacle but never refreshes closest_pos, so a later, larger
candidate can displace a smaller one. -/
theorem claim_C1 (pw ph : ℕ) (g : Game) (hs : centerSorted g.obstacles) :
    g.get_next_obstacle pw ph =
      (g.obstacles.find? fun o =>
        decide (o.get_hitbox.1.centerx > (g.player.get_hitbox pw ph).centerx)) ∧
    ∀ o, g.get_next_obstacle pw ph = some o →
      (o.get_hitbox.1.centerx > (g.player.get_hitbox pw ph).centerx ∧
        ∀ o' ∈ g.obstacles,
          o'.get_hitbox.1.centerx > (g.player.get_hitbox pw ph).centerx →
          o.get_hitbox.1.centerx ≤ o'.get_hitbox.1.centerx) := by
  have hmain : g.get_next_obstacle pw ph =
      (g.obstacles.find? fun o =>
        decide (o.get_hitbox.1.centerx > (g.player.get_hitbox pw ph).centerx)) :=
    nextObstGo_sorted _ g.obstacles hs
  refine ⟨hmain, fun o hsome => ?_⟩
  rw [hmain] at hsome
  constructor
  · have := List.find?_some hsome
    simpa using this
  · exact find_sorted_min g.obstacles hs _ o hsome

theorem Obstacle.topCenterx_eval (o : Obstacle) :
    o.get_hitbox.1.centerx = qtrunc o.x + 40 := by
  simp only [Obstacle.get_hitbox, Obstacle.topSurfaceSize, Rect.centerx]
  norm_num

theorem Player.centerx_eval (pw ph : ℕ) (p : Player) :
    (p.get_hitbox pw ph).centerx = qtrunc p.x + (pw : ℤ) / 2 := rfl

/-- C1 as stated is false: with queue centers 440, 340, 390 and player
center 285, get_next_obstacle returns the obstacle with center 390, although
the obstacle with center 340 is also ahead of the player and closer.  The
elif branch of the loop replaces closest_obstacle without refreshing
closest_pos, so the stale 440 lets 390 win over the already-found 340. -/
theorem claim_C1_counterexample :
    Game.get_next_obstacle 70 70 gC1 = some oC ∧
      oB ∈ gC1.obstacles ∧
      oB.get_hitbox.1.centerx > (gC1.player.get_hitbox 70 70).centerx ∧
      oB.get_hitbox.1.centerx < oC.get_hitbox.1.centerx := by
  have e250 : qtrunc (250 : ℚ) = 250 := by
    rw [show (250 : ℚ) = ((250 : ℤ) : ℚ) by norm_num, qtrunc_intCast]
  have e300 : qtrunc (300 : ℚ) = 300 := by
    rw [show (300 : ℚ) = ((300 : ℤ) : ℚ) by norm_num, qtrunc_intCast]
  have e350 : qtrunc (350 : ℚ) = 350 := by
    rw [show (350 : ℚ) = ((350 : ℤ) : ℚ) by norm_num, qtrunc_intCast]
  have e400 : qtrunc (400 : ℚ) = 400 := by
    rw [show (400 : ℚ) = ((400 : ℤ) : ℚ) by norm_num, qtrunc_intCast]
  have hA : oA.get_hitbox.1.centerx = 440 := by
    rw [Obstacle.topCenterx_eval]
    show qtrunc (400 : ℚ) + 40 = 440
    rw [e400]
    norm_num
  have hB : oB.get_hitbox.1.centerx = 340 := by
    rw [Obstacle.topCenterx_eval]
    show qtrunc (300 : ℚ) + 40 = 340
    rw [e300]
    norm_num
  have hC : oC.get_hitbox.1.centerx = 390 := by
    rw [Obstacle.topCenterx_eval]
    show qtrunc (350 : ℚ) + 40 = 390
    rw [e350]
    norm_num
  have hp : (gC1.player.get_hitbox 70 70).centerx = 285 := by
    rw [Player.centerx_eval]
    show qtrunc (250 : ℚ) + (70 : ℤ) / 2 = 285
    rw [e250]
    decide
  refine ⟨?_, ?_, ?_, ?_⟩
  · show nextObstGo ((gC1.player.get_hitbox 70 70).centerx) gC1.obstacles none = some oC
    rw [hp, show gC1.obstacles = [oA, oB, oC] from rfl]
    simp only [nextObstGo, hA, hB, hC]
    norm_num
  · exact List.mem_cons_of_mem _ (List.mem_cons_self _ _)
  · rw [hB, hp]; norm_num
  · rw [hB, hC]; norm_num

/-- Witness for C1 on a sorted two-obstacle queue. -/
theorem claim_C1_witness :
    centerSorted gW.obstacles ∧
      gW.get_next_obstacle 70 70 =
        (gW.obstacles.find? fun o =>
          decide (o.get_hitbox.1.centerx > (gW.player.get_hitbox 70 70).centerx)) := by
  have e300 : qtrunc (300 : ℚ) = 300 := by
    rw [show (300 : ℚ) = ((300 : ℤ) : ℚ) by norm_num, qtrunc_intCast]
  have e400 : qtrunc (400 : ℚ) = 400 := by
    rw [show (400 : ℚ) = ((400 : ℤ) : ℚ) by norm_num, qtrunc_intCast]
  have hs : centerSorted gW.obstacles := by
    show List.Pairwise _ [oB, oA]
    refine List.Pairwise.cons ?_ (List.pairwise_singleton _ _)
    intro b hb
    rw [List.mem_singleton.mp hb]
    rw [Obstacle.topCenterx_eval, Obstacle.topCenterx_eval]
    show qtrunc (300 : ℚ) + 40 ≤ qtrunc (400 : ℚ) + 40
    rw [e300, e400]
    norm_num
  exact ⟨hs, (claim_C1 70 70 gW hs).1⟩

/-- C7: get_next_obstacle returns the none sentinel exactly when no obstacle
top-center strictly exceeds the player's center (in particular on the empty
queue); calculate_fitness in that state fails (modelled as none, the source
raises on None); and when a next obstacle exists it returns
distance_traveled - (distance_to_obstacle + |height_to_obstacle|). -/
theorem claim_C7 (pw ph : ℕ) (g : Game) :
    (g.get_next_obstacle pw ph = none ↔
      ∀ o ∈ g.obstacles,
        ¬(o.get_hitbox.1.centerx > (g.player.get_hitbox pw ph).centerx)) ∧
    (g.get_next_obstacle pw ph = none → g.calculate_fitness pw ph = none) ∧
    (∀ o, g.get_next_obstacle pw ph = some o →
      g.calculate_fitness pw ph =
        some (g.distance_traveled -
          ((g.distance_to_obstacle pw ph o : ℚ) + |g.height_to_obstacle pw ph o|))) := by
  refine ⟨nextObstGo_none_iff _ _, ?_, ?_⟩
  · intro h
    simp [Game.calculate_fitness, h]
  · intro o h
    simp [Game.calculate_fitness, h]

/-- Witness for C7: on the initial (empty-queue) game, fitness fails. -/
theorem claim_C7_witness :
    Game.get_next_obstacle 70 70 Game.init = none ∧
      Game.calculate_fitness 70 70 Game.init = none :=
  ⟨rfl, (claim_C7 70 70 Game.init).2.1 rfl⟩

/-- C10: the query operations leave the game state — player, obstacle queue,
counters, distance and session state — unchanged (the source methods perform
no attribute writes; record equality covers every component). -/
theorem claim_C10 (pw ph : ℕ) (g : Game) (o : Obstacle) :
    (g.get_next_obstacle_st pw ph).1 = g ∧
      (g.distance_to_obstacle_st pw ph o).1 = g ∧
      (g.height_to_obstacle_st pw ph o).1 = g ∧
      (g.calculate_fitness_st pw ph).1 = g := by
  refine ⟨rfl, rfl, rfl, ?_⟩
  unfold Game.calculate_fitness_st Game.get_next_obstacle_st
  cases h : g.get_next_obstacle pw ph <;>
    simp [h, Game.distance_to_obstacle_st, Game.height_to_obstacle_st]

theorem keep_update_mono (o : Obstacle) (h : keepB o = false) :
    keepB o.update = false := by
  simp only [keepB, Obstacle.update, Obstacle.speed, Obstacle.surfaceWidth,
    decide_eq_false_iff_not, not_lt] at h ⊢
  linarith

theorem filterMark_id (l : List (Obstacle × Bool)) (h : ∀ q ∈ l, q.2 = keepB q.1) :
    filterMark l = l := by
  induction l with
  | nil => rfl
  | cons a rs ih =>
    obtain ⟨o, b⟩ := a
    have ha := h (o, b) (List.mem_cons_self (o, b) rs)
    have htail := ih fun q hq => h q (List.mem_cons_of_mem (o, b) hq)
    simp only at ha
    simp only [filterMark, List.map_cons] at htail ⊢
    rw [htail, ha, Bool.and_self]

theorem dyingCount_zero (l : List (Obstacle × Bool)) (h : ∀ q ∈ l, q.2 = keepB q.1) :
    dyingCount l = 0 := by
  simp only [dyingCount, List.countP_eq_zero]
  intro q hq
  rw [h q hq]
  cases keepB q.1 <;> simp

theorem count_split (rs : List (Obstacle × Bool))
    (hrest : ∀ q ∈ rs, q.2 = false → keepB q.1 = false) :
    ((rs.countP fun q => q.2 && !(keepB q.1)) +
      rs.countP fun q => (q.2 && keepB q.1) && !(keepB q.1.update)) =
      rs.countP fun q => q.2 && !(keepB q.1.update) := by
  induction rs with
  | nil => simp
  | cons a l ih =>
    have htail := ih fun q hq => hrest q (List.mem_cons_of_mem a hq)
    have hm := keep_update_mono a.1
    have ha := hrest a (List.mem_cons_self a l)
    simp only [List.countP_cons]
    cases hb : a.2 <;> cases hk : keepB a.1 <;> cases hk' : keepB a.1.update <;>
      simp_all <;> omega

theorem map_split (rs : List (Obstacle × Bool))
    (hrest : ∀ q ∈ rs, q.2 = false → keepB q.1 = false) :
    (rs.map fun q => (q.1.update, (q.2 && keepB q.1) && keepB q.1.update)) =
      rs.map fun q => (q.1.update, q.2 && keepB q.1.update) := by
  apply List.map_congr_left
  intro a ha
  have hm := keep_update_mono a.1
  have haf := hrest a ha
  cases hb : a.2 <;> cases hk : keepB a.1 <;> cases hk' : keepB a.1.update <;> simp_all

/-- Full characterization of the Game.update obstacle loop: the final state
is OVER exactly when some obstacle collides after its move, the passed
counter grows by the number of still-live obstacles whose moved position
fails the on-screen test, and each visited obstacle is moved and its deque
membership updated accordingly. -/
theorem tickLoop_spec (pw ph : ℕ) (pl : Player) (st : GameState) (passed : ℕ)
    (prevs rest : List (Obstacle × Bool))
    (hprev : ∀ q ∈ prevs, q.2 = keepB q.1)
    (hrest : ∀ q ∈ rest, q.2 = false → keepB q.1 = false) :
    tickLoop pw ph pl st passed prevs rest =
      ((if rest.any fun q => Obstacle.detect_collision pw ph q.1.update pl
        then GameState.OVER else st),
       passed + (rest.countP fun q => q.2 && !(keepB q.1.update)),
       prevs ++ rest.map fun q => (q.1.update, q.2 && keepB q.1.update)) := by
  induction' hn : rest.length with n ih generalizing rest st passed prevs
  case zero =>
    have hnil : rest = [] := List.length_eq_zero.mp hn
    subst hnil
    rw [tickLoop]
    simp
  case succ =>
    obtain ⟨q, rs, rfl⟩ : ∃ q rs, rest = q :: rs := by
      cases rest with
      | nil => simp at hn
      | cons a b => exact ⟨a, b, rfl⟩
    rw [tickLoop]
    have hrest_head := hrest q (List.mem_cons_self q rs)
    have hrest_tail : ∀ q' ∈ rs, q'.2 = false → keepB q'.1 = false :=
      fun q' hq' => hrest q' (List.mem_cons_of_mem q hq')
    have hfm : filterMark prevs = prevs := filterMark_id prevs hprev
    -- invariants for the recursive call
    have hprev' : ∀ q' ∈ filterMark prevs ++ [(q.1.update, q.2 && keepB q.1.update)],
        q'.2 = keepB q'.1 := by
      intro q' hq'
      rcases List.mem_append.mp hq' with hin | hin
      · rw [hfm] at hin
        exact hprev q' hin
      · have hflag : (q.2 && keepB q.1.update) = keepB q.1.update := by
          cases hb : q.2
          · rw [keep_update_mono q.1 (hrest_head hb)]
            rfl
          · rw [Bool.true_and]
        rw [List.mem_singleton.mp hin]
        exact hflag
    have hrest' : ∀ q' ∈ filterMark rs, q'.2 = false → keepB q'.1 = false := by
      intro q' hq' hfalse
      simp only [filterMark, List.mem_map] at hq'
      obtain ⟨a, ha, rfl⟩ := hq'
      simp only at hfalse ⊢
      rcases Bool.and_eq_false_iff.mp hfalse with hb | hk
      · exact hrest_tail a ha hb
      · exact hk
    have hlen : (filterMark rs).length = n := by
      simp only [filterMark, List.length_map]
      simpa using hn
    rw [ih _ _ _ _ hprev' hrest' hlen]
    -- now compare the three components
    refine Prod.ext ?_ (Prod.ext ?_ ?_)
    · -- state component
      show (if (filterMark rs).any fun q' => Obstacle.detect_collision pw ph q'.1.update pl
            then GameState.OVER
            else if Obstacle.detect_collision pw ph q.1.update pl then GameState.OVER else st) =
          if (q :: rs).any fun q' => Obstacle.detect_collision pw ph q'.1.update pl
          then GameState.OVER else st
      have hany : ((filterMark rs).any fun q' => Obstacle.detect_collision pw ph q'.1.update pl) =
          rs.any fun q' => Obstacle.detect_collision pw ph q'.1.update pl := by
        simp [filterMark, List.any_map, Function.comp_def]
      rw [hany, List.any_cons]
      cases hh : Obstacle.detect_collision pw ph q.1.update pl <;>
        cases ht : rs.any fun q' => Obstacle.detect_collision pw ph q'.1.update pl <;> simp
    · -- passed component
      show passed + dyingCount (prevs ++ (q.1.update, q.2) :: rs) +
          ((filterMark rs).countP fun q' => q'.2 && !(keepB q'.1.update)) =
        passed + (q :: rs).countP fun q' => q'.2 && !(keepB q'.1.update)
      have h1 : dyingCount (prevs ++ (q.1.update, q.2) :: rs) =
          (if q.2 && !(keepB q.1.update) then 1 else 0) +
            rs.countP fun q' => q'.2 && !(keepB q'.1) := by
        have hz := dyingCount_zero prevs hprev
        unfold dyingCount at hz ⊢
        rw [List.countP_append, hz]
        simp only [List.countP_cons]
        omega
      have h2 : ((filterMark rs).countP fun q' => q'.2 && !(keepB q'.1.update)) =
          rs.countP fun q' => (q'.2 && keepB q'.1) && !(keepB q'.1.update) := by
        simp [filterMark, List.countP_map, Function.comp_def]
      rw [h1, h2]
      have h3 := count_split rs hrest_tail
      simp only [List.countP_cons]
      omega
    · -- obstacle list component
      show (filterMark prevs ++ [(q.1.update, q.2 && keepB q.1.update)]) ++
            ((filterMark rs).map fun q' => (q'.1.update, q'.2 && keepB q'.1.update)) =
          prevs ++ (q :: rs).map fun q' => (q'.1.update, q'.2 && keepB q'.1.update)
      have h4 : ((filterMark rs).map fun q' => (q'.1.update, q'.2 && keepB q'.1.update)) =
          rs.map fun q' => (q'.1.update, q'.2 && keepB q'.1.update) := by
        rw [show ((filterMark rs).map fun q' => (q'.1.update, q'.2 && keepB q'.1.update)) =
            rs.map fun q' => (q'.1.update, (q'.2 && keepB q'.1) && keepB q'.1.update) by
          simp [filterMark, List.map_map, Function.comp_def]]
        exact map_split rs hrest_tail
      rw [hfm, h4, List.map_cons, List.append_assoc]
      rfl

theorem pack_filter (l : List Obstacle) :
    (((l.map fun o => (o.update, keepB o.update)).filter fun q => q.2).map fun q => q.1) =
      (l.map Obstacle.update).filter keepB := by
  induction l with
  | nil => rfl
  | cons a t ih =>
    simp only [List.map_cons, List.filter_cons]
    cases hk : keepB a.update <;> simp [hk, ih]

/-- Characterization of one Game.update tick: the player moves, the distance
grows by 1, every obstacle moves left by its speed, the state flips to OVER
exactly when some moved obstacle collides with the moved player, the queue is
the on-screen filter of the moved obstacles and the passed counter grows by
the number of obstacles dropped. -/
theorem Game.update_spec (pw ph : ℕ) (g : Game) :
    Game.update pw ph g =
      { state :=
          if (g.obstacles.map Obstacle.update).any
              fun o => Obstacle.detect_collision pw ph o (g.player.update pw ph)
          then GameState.OVER else g.state
        player := g.player.update pw ph
        obstacles := (g.obstacles.map Obstacle.update).filter keepB
        obstacles_passed := g.obstacles_passed +
          (g.obstacles.map Obstacle.update).countP fun o => !(keepB o)
        distance_traveled := g.distance_traveled + 1 } := by
  have hprev0 : ∀ q ∈ ([] : List (Obstacle × Bool)), q.2 = keepB q.1 := by simp
  have hrest0 : ∀ q ∈ g.obstacles.map fun o => (o, true), q.2 = false → keepB q.1 = false := by
    intro q hq hfalse
    simp only [List.mem_map] at hq
    obtain ⟨a, _, rfl⟩ := hq
    simp at hfalse
  simp only [Game.update]
  rw [tickLoop_spec _ _ _ _ _ _ _ hprev0 hrest0]
  congr 1
  · simp [List.any_map, Function.comp_def]
  · simpa [Function.comp_def] using pack_filter g.obstacles
  · simp [List.countP_map, Function.comp_def]

theorem collideLoop_spec (pw ph : ℕ) (pl : Player) (st : GameState) (l : List Obstacle) :
    collideLoop pw ph pl st l =
      ((if l.any fun o => Obstacle.detect_collision pw ph o.update pl
        then GameState.OVER else st),
       l.map Obstacle.update) := by
  induction l generalizing st with
  | nil => simp [collideLoop]
  | cons o t ih =>
    simp only [collideLoop]
    rw [ih]
    refine Prod.ext ?_ rfl
    show (if t.any fun o' => Obstacle.detect_collision pw ph o'.update pl
          then GameState.OVER
          else if Obstacle.detect_collision pw ph o.update pl then GameState.OVER else st) =
        if (o :: t).any fun o' => Obstacle.detect_collision pw ph o'.update pl
        then GameState.OVER else st
    rw [List.any_cons]
    cases hh : Obstacle.detect_collision pw ph o.update pl <;>
      cases ht : t.any fun o' => Obstacle.detect_collision pw ph o'.update pl <;> simp

theorem length_sub_filter (l : List Obstacle) :
    l.length - (l.filter keepB).length = l.countP fun o => !(keepB o) := by
  induction l with
  | nil => rfl
  | cons a t ih =>
    have hle := List.length_filter_le keepB t
    simp only [List.filter_cons, List.countP_cons, List.length_cons]
    cases hk : keepB a <;> simp only [if_pos, if_neg, Bool.not_true, Bool.not_false] <;>
      simp [hk] <;> omega

theorem updateFilterOnce_spec (pw ph : ℕ) (g : Game) :
    Game.updateFilterOnce pw ph g =
      { state :=
          if (g.obstacles.map Obstacle.update).any
              fun o => Obstacle.detect_collision pw ph o (g.player.update pw ph)
          then GameState.OVER else g.state
        player := g.player.update pw ph
        obstacles := (g.obstacles.map Obstacle.update).filter keepB
        obstacles_passed := g.obstacles_passed +
          (g.obstacles.map Obstacle.update).countP fun o => !(keepB o)
        distance_traveled := g.distance_traveled + 1 } := by
  simp only [Game.updateFilterOnce]
  rw [collideLoop_spec]
  congr 1
  · simp [List.any_map]
  · rw [length_sub_filter]

/-- C5: replacing the per-obstacle re-filtering in the update loop by one
filter application per tick leaves the whole game state — queue contents and
order, obstacles_passed, player, distance and session state — identical
after every tick. -/
theorem claim_C5 (pw ph : ℕ) (g : Game) (n : ℕ) :
    (Game.update pw ph)^[n] g = (Game.updateFilterOnce pw ph)^[n] g := by
  have hstep : ∀ g' : Game, Game.update pw ph g' = Game.updateFilterOnce pw ph g' :=
    fun g' => by rw [Game.update_spec, updateFilterOnce_spec]
  induction n generalizing g with
  | zero => rfl
  | succ n ih =>
    rw [Function.iterate_succ_apply, Function.iterate_succ_apply, hstep, ih]

theorem g1_run (pw ph : ℕ) (n : ℕ) (hn : n ≤ 254) :
    (gameAfter pw ph n g1).obstacles =
      [{ screen_height := 640, offset := 0, x := 1200 - 5 * (n : ℚ), y := 0 }] ∧
    (gameAfter pw ph n g1).obstacles_passed = 0 := by
  induction n with
  | zero =>
    constructor
    · show g1.obstacles = _
      simp [g1, Game.init, Game.init_game, Game.add_obstacle, Obstacle.init, window_height]
    · rfl
  | succ n ih =>
    obtain ⟨hobs, hpass⟩ := ih (by omega)
    have hstep : gameAfter pw ph (n + 1) g1 = Game.update pw ph (gameAfter pw ph n g1) := by
      unfold gameAfter
      rw [Function.iterate_succ_apply']
    have hupd : Obstacle.update { screen_height := 640, offset := 0, x := 1200 - 5 * (n : ℚ), y := 0 } =
        { screen_height := 640, offset := 0, x := 1200 - 5 * ((n : ℚ) + 1), y := 0 } := by
      simp only [Obstacle.update, Obstacle.speed]
      congr 1
      ring
    have hkeep : keepB { screen_height := 640, offset := 0, x := 1200 - 5 * ((n : ℚ) + 1), y := 0 } = true := by
      simp only [keepB, Obstacle.surfaceWidth, decide_eq_true_eq]
      have hc : (n : ℚ) ≤ 253 := by exact_mod_cast (by omega : n ≤ 253)
      linarith
    rw [hstep, Game.update_spec]
    constructor
    · show ((gameAfter pw ph n g1).obstacles.map Obstacle.update).filter keepB = _
      rw [hobs]
      simp only [List.map_cons, List.map_nil]
      rw [hupd]
      simp [List.filter_cons, hkeep]
    · show (gameAfter pw ph n g1).obstacles_passed +
        ((gameAfter pw ph n g1).obstacles.map Obstacle.update).countP (fun o => !(keepB o)) = 0
      rw [hobs, hpass]
      simp only [List.map_cons, List.map_nil]
      rw [hupd]
      simp [List.countP_cons, hkeep]

/-- C2 as stated is false: after 238 ticks the obstacle sits at x = 10, is
still in the queue (10 + 80 > 9), and obstacles_passed is 0; the spec's
(1200-9)/5 estimate ignores the 80-pixel obstacle width. -/
theorem claim_C2_counterexample :
    (gameAfter 70 70 238 g1).obstacles =
      [{ screen_height := 640, offset := 0, x := 10, y := 0 }] ∧
    (gameAfter 70 70 238 g1).obstacles_passed = 0 := by
  obtain ⟨h1, h2⟩ := g1_run 70 70 238 (by norm_num)
  refine ⟨?_, h2⟩
  rw [h1]
  norm_num

/-- C2, amended: in the single-obstacle scenario the obstacle is removed by
the on-screen filter, with obstacles_passed = 1, after 255 ticks — the first
tick at which x + 80 = 1280 - 5n fails to exceed 9 — regardless of the
player sprite size. -/
theorem claim_C2 (pw ph : ℕ) :
    (gameAfter pw ph 255 g1).obstacles = [] ∧
    (gameAfter pw ph 255 g1).obstacles_passed = 1 := by
  obtain ⟨hobs, hpass⟩ := g1_run pw ph 254 (by norm_num)
  have hstep : gameAfter pw ph 255 g1 = Game.update pw ph (gameAfter pw ph 254 g1) := by
    unfold gameAfter
    rw [show (255 : ℕ) = 254 + 1 from rfl, Function.iterate_succ_apply']
  have hupd : Obstacle.update { screen_height := 640, offset := 0, x := 1200 - 5 * ((254 : ℕ) : ℚ), y := 0 } =
      { screen_height := 640, offset := 0, x := -75, y := 0 } := by
    simp only [Obstacle.update, Obstacle.speed]
    congr 1
    norm_num
  have hkeep : keepB { screen_height := 640, offset := 0, x := (-75 : ℚ), y := 0 } = false := by
    simp only [keepB, Obstacle.surfaceWidth, decide_eq_false_iff_not, not_lt]
    norm_num
  rw [hstep, Game.update_spec]
  constructor
  · show ((gameAfter pw ph 254 g1).obstacles.map Obstacle.update).filter keepB = []
    rw [hobs]
    simp only [List.map_cons, List.map_nil]
    rw [hupd]
    simp [List.filter_cons, hkeep]
  · show (gameAfter pw ph 254 g1).obstacles_passed +
      ((gameAfter pw ph 254 g1).obstacles.map Obstacle.update).countP (fun o => !(keepB o)) = 1
    rw [hobs, hpass]
    simp only [List.map_cons, List.map_nil]
    rw [hupd]
    simp [List.countP_cons, hkeep]

/-- C8: after N ticks, obstacles_passed equals its initial value plus the
cumulative number of obstacles ever removed by the on-screen filter, and the
counter is monotonically non-decreasing in the tick count. -/
theorem claim_C8 (pw ph : ℕ) (g : Game) (N : ℕ) :
    (gameAfter pw ph N g).obstacles_passed = g.obstacles_passed + cumRemoved pw ph g N ∧
    Monotone fun k => (gameAfter pw ph k g).obstacles_passed := by
  have hsucc : ∀ k : ℕ, (gameAfter pw ph (k + 1) g).obstacles_passed =
      (gameAfter pw ph k g).obstacles_passed + removedInTick (gameAfter pw ph k g) := by
    intro k
    have hstep : gameAfter pw ph (k + 1) g = Game.update pw ph (gameAfter pw ph k g) := by
      unfold gameAfter
      rw [Function.iterate_succ_apply']
    rw [hstep, Game.update_spec]
    rfl
  constructor
  · induction N with
    | zero => rfl
    | succ n ih =>
      rw [hsucc n, ih, cumRemoved]
      omega
  · apply monotone_nat_of_le_succ
    intro k
    rw [hsucc k]
    exact Nat.le_add_right _ _

theorem calculate_fitness_st_fst (pw ph : ℕ) (g : Game) :
    (g.calculate_fitness_st pw ph).1 = g := by
  unfold Game.calculate_fitness_st Game.get_next_obstacle_st
  cases h : g.get_next_obstacle pw ph <;>
    simp [h, Game.distance_to_obstacle_st, Game.height_to_obstacle_st]

theorem Player.update_x (pw ph : ℕ) (p : Player) : (p.update pw ph).x = p.x := by
  simp only [Player.update]
  split_ifs <;> rfl

/-- C9, amended: the core operations never enter PAUSED; init_game sets the
state to RUNNING from any state, update sets it to OVER (on collision) from
any state — including NOT_STARTED, see the counterexample — and every other
core operation leaves the state unchanged. -/
theorem claim_C9 (pw ph : ℕ) (g : Game) (op : GameOp) :
    ((applyOp pw ph op g).state = g.state ∨
      (op = GameOp.init_game ∧ (applyOp pw ph op g).state = GameState.RUNNING) ∨
      (op = GameOp.update ∧ (applyOp pw ph op g).state = GameState.OVER)) ∧
    ((applyOp pw ph op g).state = GameState.PAUSED → g.state = GameState.PAUSED) := by
  cases op with
  | init_game =>
    refine ⟨Or.inr (Or.inl ⟨rfl, rfl⟩), fun h => ?_⟩
    simp [applyOp, Game.init_game] at h
  | update =>
    have hst : (applyOp pw ph GameOp.update g).state =
        (if (g.obstacles.map Obstacle.update).any
            (fun o => Obstacle.detect_collision pw ph o (g.player.update pw ph))
        then GameState.OVER else g.state) := by
      show (Game.update pw ph g).state = _
      rw [Game.update_spec]
    by_cases hc : ((g.obstacles.map Obstacle.update).any
        fun o => Obstacle.detect_collision pw ph o (g.player.update pw ph)) = true
    · rw [if_pos hc] at hst
      refine ⟨Or.inr (Or.inr ⟨rfl, hst⟩), fun h => ?_⟩
      rw [hst] at h
      exact absurd h (by simp)
    · rw [if_neg hc] at hst
      exact ⟨Or.inl hst, fun h => hst ▸ h⟩
  | add_obstacle off => exact ⟨Or.inl rfl, fun h => h⟩
  | get_score => exact ⟨Or.inl rfl, fun h => h⟩
  | get_next_obstacle => exact ⟨Or.inl rfl, fun h => h⟩
  | distance_to_obstacle o => exact ⟨Or.inl rfl, fun h => h⟩
  | height_to_obstacle o => exact ⟨Or.inl rfl, fun h => h⟩
  | calculate_fitness =>
    have hf : (applyOp pw ph GameOp.calculate_fitness g).state = g.state := by
      show ((g.calculate_fitness_st pw ph).1).state = g.state
      rw [calculate_fitness_st_fst]
    exact ⟨Or.inl hf, fun h => hf ▸ h⟩

/-- Witness for C9: init_game on the fresh game. -/
theorem claim_C9_witness :
    ((applyOp 70 70 GameOp.init_game Game.init).state = Game.init.state ∨
      (GameOp.init_game = GameOp.init_game ∧
        (applyOp 70 70 GameOp.init_game Game.init).state = GameState.RUNNING) ∨
      (GameOp.init_game = GameOp.update ∧
        (applyOp 70 70 GameOp.init_game Game.init).state = GameState.OVER)) ∧
    ((applyOp 70 70 GameOp.init_game Game.init).state = GameState.PAUSED →
      Game.init.state = GameState.PAUSED) :=
  claim_C9 70 70 Game.init GameOp.init_game

/-- C9 as stated is false: update performs the transition
NOT_STARTED → OVER, which is neither NOT_STARTED → RUNNING via init_game nor
RUNNING → OVER. -/
theorem claim_C9_counterexample :
    gBad.state = GameState.NOT_STARTED ∧
      (Game.update 70 70 gBad).state = GameState.OVER := by
  refine ⟨rfl, ?_⟩
  have e250 : qtrunc (250 : ℚ) = 250 := by
    rw [show (250 : ℚ) = ((250 : ℤ) : ℚ) by norm_num, qtrunc_intCast]
  have e200 : qtrunc (200 : ℚ) = 200 := by
    rw [show (200 : ℚ) = ((200 : ℤ) : ℚ) by norm_num, qtrunc_intCast]
  have e195 : qtrunc (195 : ℚ) = 195 := by
    rw [show (195 : ℚ) = ((195 : ℤ) : ℚ) by norm_num, qtrunc_intCast]
  have e0 : qtrunc (0 : ℚ) = 0 := by
    rw [show (0 : ℚ) = ((0 : ℤ) : ℚ) by norm_num, qtrunc_intCast]
  -- the updated player of the bad game
  have hpy : (Player.update 70 70 Player.init).y = 608 / 3 := by
    rw [Player.update_y]
    have hbot : ¬((Player.init.get_hitbox 70 70).bottom > window_height) := by
      show ¬(qtrunc (200 : ℚ) + (70 : ℤ) > window_height)
      rw [e200]
      simp [window_height]
    have htop : ¬((Player.init.get_hitbox 70 70).top < 0) := by
      show ¬(qtrunc (200 : ℚ) < 0)
      rw [e200]
      norm_num
    rw [if_neg hbot, if_neg htop, if_neg (fun hc => htop hc.2)]
    show (200 : ℚ) - 0 / 2 + 8 / 3 = 608 / 3
    norm_num
  have hpv : (Player.update 70 70 Player.init).velocity_up = 0 := by
    rw [Player.update_velocity]
    split_ifs with h1 h2
    · rfl
    · exact absurd h2 (by show ¬((0 : ℚ) > 0); norm_num)
    · rfl
  have e202 : qtrunc ((608 : ℚ) / 3) = 202 := by
    unfold qtrunc
    rw [if_pos (by norm_num)]
    rw [Int.floor_eq_iff]
    norm_num
  have hhb : (Player.update 70 70 Player.init).get_hitbox 70 70 =
      { x := 250, y := 202, w := 70, h := 70 } := by
    unfold Player.get_hitbox
    rw [Player.update_x, hpy]
    show ({ x := qtrunc (250 : ℚ), y := qtrunc ((608 : ℚ) / 3), w := 70, h := 70 } : Rect) = _
    rw [e250, e202]
  have hob : Obstacle.update { screen_height := 640, offset := 0, x := 200, y := 0 } =
      { screen_height := 640, offset := 0, x := 195, y := 0 } := by
    simp only [Obstacle.update, Obstacle.speed]
    congr 1
    norm_num
  have htoprect : ({ screen_height := 640, offset := 0, x := 195, y := 0 } : Obstacle).get_hitbox.1 =
      { x := 195, y := 0, w := 80, h := 235 } := by
    show (⟨qtrunc (195 : ℚ), qtrunc (0 : ℚ), 80, qtrunc ((640 : ℚ) / 2 - (170 : ℚ) / 2 + ((0 : ℤ) : ℚ))⟩ : Rect) = ({ x := 195, y := 0, w := 80, h := 235 } : Rect)
    rw [e195, e0, show ((640 : ℚ) / 2 - (170 : ℚ) / 2 + ((0 : ℤ) : ℚ)) = ((235 : ℤ) : ℚ) by norm_num, qtrunc_intCast]
  have hcol : Obstacle.detect_collision 70 70
      { screen_height := 640, offset := 0, x := 195, y := 0 }
      (Player.update 70 70 Player.init) = true := by
    unfold Obstacle.detect_collision
    rw [hhb, htoprect]
    rw [show Rect.colliderect { x := 195, y := 0, w := 80, h := 235 }
        { x := 250, y := 202, w := 70, h := 70 } = true from by decide]
    rw [Bool.true_or]
  rw [Game.update_spec]
  show (if (gBad.obstacles.map Obstacle.update).any
      (fun o => Obstacle.detect_collision 70 70 o (gBad.player.update 70 70))
    then GameState.OVER else gBad.state) = GameState.OVER
  rw [show gBad.obstacles = [{ screen_height := 640, offset := 0, x := 200, y := 0 }] from rfl]
  rw [show gBad.player = Player.init from rfl]
  simp only [List.map_cons, List.map_nil, hob, List.any_cons, List.any_nil, hcol]
  rfl
